import Mathlib

/-!
Verification of the data-access layer of the Employee-Management-system
repository (`src/db/operations.py`).

The store is PostgreSQL; the application state is modelled as the contents
of the two tables (`departments`, `employees`) together with the serial-id
counters.  Each Python operation is translated into a pure function on this
state.  A failed SQL statement leaves the database unchanged (per-statement
atomicity of the store), so every operation returns its result together with
the state after the call.

The integrity errors the store can raise (`psycopg2.IntegrityError`) are
modelled by `PgError`, carrying both the structured constraint metadata
(`constraintName`) and the human-readable `message`; the Python code's
`except` blocks that translate those errors into `ValueError`s are modelled
by `classify_integrity_error`, which — like the source — branches on
lowercase substrings of the message text only.

Salaries (`DECIMAL(10,2)`) are modelled as integer cents.
-/

set_option maxHeartbeats 1000000
set_option maxRecDepth 100000

deriving instance DecidableEq for Except

namespace EmpMgmt

/-- A row of the `departments` table: `id SERIAL PRIMARY KEY`,
`name VARCHAR(100) UNIQUE NOT NULL`. -/
structure Department where
  id : Nat
  name : String
  deriving Repr, DecidableEq

/-- A row of the `employees` table: `id SERIAL PRIMARY KEY`, `name NOT NULL`,
`email UNIQUE NOT NULL`, `department_id INTEGER REFERENCES departments(id)
ON DELETE SET NULL` (nullable), `salary DECIMAL(10,2)` (in cents). -/
structure Employee where
  id : Nat
  name : String
  email : String
  department_id : Option Nat
  salary : Int
  deriving Repr, DecidableEq

/-- The database state: both tables plus the next value of each SERIAL
sequence. -/
structure DB where
  departments : List Department
  employees : List Employee
  nextDeptId : Nat
  nextEmpId : Nat
  deriving Repr, DecidableEq

/-- A `psycopg2.IntegrityError` as raised by the store: structured
constraint-violation metadata (the violated constraint's name) together with
the error message text (`str(e)`). -/
structure PgError where
  constraintName : Option String
  message : String
  deriving Repr, DecidableEq

/-- The errors the data-access layer raises: the four domain conditions the
`except` blocks translate `IntegrityError`s into (as `ValueError`s), plus
`unexpected` for any store error that is re-raised untranslated. -/
inductive DomainError where
  | duplicateName
  | hasDependents
  | duplicateEmail
  | invalidDepartment
  | unexpected (e : PgError)
  deriving Repr, DecidableEq

/-- The kind of a `DomainError`, forgetting the payload of `unexpected`. -/
inductive ErrorKind where
  | duplicateName
  | hasDependents
  | duplicateEmail
  | invalidDepartment
  | unexpected
  deriving Repr, DecidableEq

/-- Forget the payload of a `DomainError`. -/
def kindOf : DomainError → ErrorKind
  | .duplicateName => .duplicateName
  | .hasDependents => .hasDependents
  | .duplicateEmail => .duplicateEmail
  | .invalidDepartment => .invalidDepartment
  | .unexpected _ => .unexpected

/-- The lowercased character sequence of a string (Python `str.lower()` /
the case folding done by `ILIKE`), at the character-list level. -/
def lowerStr (s : String) : List Char := s.data.map Char.toLower

/-- Python's `pat in msg` substring test on a lowercased message. -/
def hasPat (msg : List Char) (pat : String) : Bool := decide (pat.data <:+: msg)

/-- The shared `except psycopg2.IntegrityError` handler of `add_employee`
(operations.py lines 85-92) and `update_employee` (lines 148-155):
`msg = str(e).lower()`; `"unique constraint" in msg or "duplicate key" in
msg` raises `ValueError("Email already exists!")`; `elif "foreign key" in
msg` raises `ValueError("Invalid department ID!")`; otherwise the original
error is re-raised. -/
def classify_integrity_error (e : PgError) : DomainError :=
  let msg := lowerStr e.message
  if hasPat msg "unique constraint" || hasPat msg "duplicate key" then
    .duplicateEmail
  else if hasPat msg "foreign key" then
    .invalidDepartment
  else
    .unexpected e

/-- The `IntegrityError` PostgreSQL raises on a violation of the
`employees.email` unique constraint. -/
def uniqueEmailErr : PgError :=
  ⟨some "employees_email_key",
   "duplicate key value violates unique constraint \"employees_email_key\""⟩

/-- The `IntegrityError` PostgreSQL raises on a violation of the
`employees.department_id` foreign-key constraint. -/
def fkDeptErr : PgError :=
  ⟨some "employees_department_id_fkey",
   "insert or update on table \"employees\" violates foreign key constraint \"employees_department_id_fkey\""⟩

/-- The `IntegrityError` PostgreSQL raises on a violation of the
`departments.name` unique constraint. -/
def uniqueDeptNameErr : PgError :=
  ⟨some "departments_name_key",
   "duplicate key value violates unique constraint \"departments_name_key\""⟩

/-- Store semantics of `INSERT INTO departments (name) VALUES (%s)`:
raises the unique-violation `IntegrityError` when `name` is already taken
(a failed statement leaves the state unchanged), otherwise appends the row
under the next serial id. -/
def pgInsertDepartment (db : DB) (name : String) : Except PgError DB :=
  if db.departments.any (fun d => d.name == name) then
    .error uniqueDeptNameErr
  else
    .ok { db with
          departments := db.departments ++ [⟨db.nextDeptId, name⟩],
          nextDeptId := db.nextDeptId + 1 }

/-- `add_department` (operations.py lines 39-50): execute the INSERT and
commit; `except psycopg2.IntegrityError` raises
`ValueError("Department name must be unique!")` (the `DuplicateName`
condition). -/
def add_department (db : DB) (name : String) : Except DomainError Unit × DB :=
  match pgInsertDepartment db name with
  | .ok db' => (.ok (), db')
  | .error _ => (.error .duplicateName, db)

/-- `delete_department` (operations.py lines 58-72): first
`SELECT id FROM employees WHERE department_id = %s LIMIT 1`; if a row comes
back, raise `ValueError("Cannot delete: department has employees. ...")`
(the `HasDependents` condition) without running the DELETE.  Otherwise
`DELETE FROM departments WHERE id = %s` and return `rowcount > 0`. -/
def delete_department (db : DB) (dept_id : Nat) : Except DomainError Bool × DB :=
  if db.employees.any (fun e => e.department_id == some dept_id) then
    (.error .hasDependents, db)
  else
    let remaining := db.departments.filter (fun d => !(d.id == dept_id))
    (.ok (decide (remaining.length < db.departments.length)),
     { db with departments := remaining })

/-- Store semantics of `INSERT INTO employees (name, email, department_id,
salary) VALUES (%s, %s, %s, %s)`: a duplicate email violates the unique
index (checked when the index entry is inserted, hence before the
foreign-key trigger fires); a supplied `department_id` that matches no
department violates the foreign key; otherwise the row is appended under
the next serial id. -/
def pgInsertEmployee (db : DB) (name email : String) (dept_id : Option Nat)
    (salary : Int) : Except PgError DB :=
  if db.employees.any (fun e => e.email == email) then
    .error uniqueEmailErr
  else if dept_id.any (fun d => !(db.departments.any (fun dep => dep.id == d))) then
    .error fkDeptErr
  else
    .ok { db with
          employees := db.employees ++ [⟨db.nextEmpId, name, email, dept_id, salary⟩],
          nextEmpId := db.nextEmpId + 1 }

/-- `add_employee` (operations.py lines 75-95): execute the INSERT and
commit; on `IntegrityError` classify it by its message text (lines 85-92),
re-raising unmatched errors untranslated. -/
def add_employee (db : DB) (name email : String) (dept_id : Option Nat)
    (salary : Int) : Except DomainError Unit × DB :=
  match pgInsertEmployee db name email dept_id salary with
  | .ok db' => (.ok (), db')
  | .error e => (.error (classify_integrity_error e), db)

/-- The applied SET clause of `update_employee`: each field appears in the
SET list exactly when the corresponding argument is not None, so exactly
the supplied fields change. -/
def applyUpdate (e : Employee) (name email : Option String)
    (dept_id : Option Nat) (salary : Option Int) : Employee :=
  { e with
    name := name.getD e.name
    email := email.getD e.email
    department_id := if dept_id.isSome then dept_id else e.department_id
    salary := salary.getD e.salary }

/-- Store semantics of `UPDATE employees SET ... WHERE id = %s`: the rows
matching `id` are rewritten by the SET clause; if a matching row's new
email collides with another row's email the unique index is violated, and
if its new `department_id` matches no department the foreign key is
violated (unique index first, as on insert).  With no matching row nothing
is written and no constraint can fire.  Returns `rowcount > 0` and the new
state. -/
def pgUpdateEmployee (db : DB) (emp_id : Nat) (name email : Option String)
    (dept_id : Option Nat) (salary : Option Int) :
    Except PgError (Bool × DB) :=
  if db.employees.any (fun e => e.id == emp_id) && email.any (fun em =>
      db.employees.any (fun e => !(e.id == emp_id) && e.email == em)) then
    .error uniqueEmailErr
  else if db.employees.any (fun e => e.id == emp_id) && dept_id.any (fun d =>
      !(db.departments.any (fun dep => dep.id == d))) then
    .error fkDeptErr
  else
    .ok (db.employees.any (fun e => e.id == emp_id),
         { db with
           employees := db.employees.map (fun e =>
             if e.id = emp_id then applyUpdate e name email dept_id salary
             else e) })

/-- `update_employee` (operations.py lines 121-158): build the SET list from
the non-None arguments; `if not fields: return True` (nothing to update);
otherwise execute the UPDATE, return `rowcount > 0`, and on
`IntegrityError` classify it by its message text (lines 148-155). -/
def update_employee (db : DB) (emp_id : Nat) (name email : Option String)
    (dept_id : Option Nat) (salary : Option Int) :
    Except DomainError Bool × DB :=
  if name.isNone && email.isNone && dept_id.isNone && salary.isNone then
    (.ok true, db)
  else
    match pgUpdateEmployee db emp_id name email dept_id salary with
    | .ok (b, db') => (.ok b, db')
    | .error e => (.error (classify_integrity_error e), db)

/-- `delete_employee` (operations.py lines 160-172):
`DELETE FROM employees WHERE id = %s`, returning `rowcount > 0`. -/
def delete_employee (db : DB) (emp_id : Nat) : Except DomainError Bool × DB :=
  let remaining := db.employees.filter (fun e => !(e.id == emp_id))
  (.ok (decide (remaining.length < db.employees.length)),
   { db with employees := remaining })

/-- `get_employee_by_id` (operations.py lines 174-183):
`SELECT e.id, e.name, e.email, e.department_id, e.salary FROM employees e
WHERE e.id = %s` followed by `fetchone()` — the first matching row, or
None.  The projection is the raw employee row (raw `department_id`, no
join), i.e. the `Employee` record itself. -/
def get_employee_by_id (db : DB) (emp_id : Nat) : Option Employee :=
  (db.employees.filter (fun e => e.id == emp_id)).head?

/-- A row of the employee-listing result set: `e.id, e.name, e.email,
d.name AS department, e.salary`, where `department` is None for an
unassigned employee (LEFT JOIN). -/
structure EmployeeRow where
  id : Nat
  name : String
  email : String
  department : Option String
  salary : Int
  deriving Repr, DecidableEq

/-- The LEFT JOIN / projection of the listing queries: the department name
is looked up through `e.department_id = d.id` (at most one match, `d.id` is
the primary key), absent when the employee is unassigned or the reference
finds no row. -/
def rowFor (db : DB) (e : Employee) : EmployeeRow :=
  ⟨e.id, e.name, e.email,
   e.department_id.bind (fun d =>
     (db.departments.filter (fun dep => dep.id == d)).head?.map (fun dep => dep.name)),
   e.salary⟩

/-- Stable insertion of an employee into a list sorted by id ascending. -/
def insertById (e : Employee) : List Employee → List Employee
  | [] => [e]
  | x :: xs => if e.id ≤ x.id then e :: x :: xs else x :: insertById e xs

/-- `ORDER BY e.id` — a stable sort of the employee rows by id ascending. -/
def sortById : List Employee → List Employee
  | [] => []
  | e :: es => insertById e (sortById es)

/-- `get_all_employees` (operations.py lines 97-106): the five-column
projection of all employees left-joined with their department, ordered by
employee id. -/
def get_all_employees (db : DB) : List EmployeeRow :=
  (sortById db.employees).map (rowFor db)

/-- A token of a SQL `LIKE` pattern: `%` (any sequence of characters),
`_` (exactly one character), or a literal character. -/
inductive LikeTok where
  | anyStr
  | anyOne
  | lit (c : Char)
  deriving Repr, DecidableEq

/-- Lex a `LIKE` pattern (PostgreSQL semantics, default escape character
backslash): a backslash makes the following pattern character literal, `%`
and `_` are the wildcards, everything else is literal.  The Boolean records
a pending escape.  (A pattern ending in a bare escape character is an error
in PostgreSQL; it is unreachable from the `f"%{name_part}%"` patterns this
code builds, since such a trailing backslash escapes the closing `%`.) -/
def lexPattern : Bool → List Char → List LikeTok
  | _, [] => []
  | true, c :: ps => .lit c :: lexPattern false ps
  | false, c :: ps =>
    if c = '\\' then lexPattern true ps
    else if c = '%' then .anyStr :: lexPattern false ps
    else if c = '_' then .anyOne :: lexPattern false ps
    else .lit c :: lexPattern false ps

/-- Match a lexed `LIKE` pattern against a character sequence, anchored to
the whole sequence: `%` matches when the rest of the pattern matches some
suffix, `_` consumes exactly one character, a literal consumes exactly
itself. -/
def likeToks : List LikeTok → List Char → Bool
  | [], s => s.isEmpty
  | .anyStr :: ps, s => s.tails.any (fun s' => likeToks ps s')
  | .anyOne :: ps, s =>
    match s with
    | [] => false
    | _ :: s' => likeToks ps s'
  | .lit c :: ps, s =>
    match s with
    | [] => false
    | x :: s' => c == x && likeToks ps s'

/-- SQL `LIKE` pattern matching over characters. -/
def likeMatch (p s : List Char) : Bool := likeToks (lexPattern false p) s

/-- PostgreSQL `ILIKE`: `LIKE` after case-folding both operands. -/
def ilike (s pattern : String) : Bool :=
  likeMatch (lowerStr pattern) (lowerStr s)

/-- `search_employees_by_name` (operations.py lines 108-119): the listing
query restricted by `WHERE e.name ILIKE %s` with the pattern
`f"%{name_part}%"`, ordered by employee id. -/
def search_employees_by_name (db : DB) (name_part : String) : List EmployeeRow :=
  (sortById (db.employees.filter (fun e =>
      ilike e.name ("%" ++ name_part ++ "%")))).map (rowFor db)

/-- `get_all_departments` (operations.py lines 52-56) returns id/name pairs
ordered by name; only its existence matters to the claims below. -/
def get_all_departments (db : DB) : List Department :=
  (db.departments.mergeSort (fun a b => a.name ≤ b.name))

/-- A sample state used to instantiate the theorems below at concrete
inputs. -/
def db0 : DB :=
  { departments := [⟨1, "Engineering"⟩],
    employees := [⟨1, "Ada", "ada@x.com", some 1, 9500000⟩],
    nextDeptId := 2, nextEmpId := 2 }

/-- A sample state with an unassigned employee, so that department 1 has no
dependents. -/
def db1 : DB :=
  { departments := [⟨1, "Engineering"⟩],
    employees := [⟨1, "Ada", "ada@x.com", none, 9500000⟩],
    nextDeptId := 2, nextEmpId := 2 }

/-- C1: `deleteDepartment` refuses with `HasDependents` (and changes
nothing) when some employee references the id; otherwise it deletes the
rows with that id and returns true exactly when such a department row
existed. -/
theorem delete_department_spec (db : DB) (did : Nat) :
    ((∃ e ∈ db.employees, e.department_id = some did) →
      delete_department db did = (.error .hasDependents, db)) ∧
    ((∀ e ∈ db.employees, e.department_id ≠ some did) →
      delete_department db did =
        (.ok (decide (∃ d ∈ db.departments, d.id = did)),
         { db with departments := db.departments.filter (fun d => !(d.id == did)) })) := by
  constructor
  · rintro ⟨e, he, hdep⟩
    unfold delete_department
    rw [if_pos]
    exact List.any_eq_true.mpr ⟨e, he, by simp [hdep]⟩
  · intro h
    unfold delete_department
    rw [if_neg]
    · have hb : decide ((db.departments.filter (fun d => !(d.id == did))).length
          < db.departments.length) = decide (∃ d ∈ db.departments, d.id = did) := by
        rw [decide_eq_decide, List.length_filter_lt_length_iff_exists]
        simp
      simp only [hb]
    · intro hany
      obtain ⟨e, he, hbe⟩ := List.any_eq_true.mp hany
      exact h e he (by simpa using hbe)

/-- Witness for C1 at a concrete state: department 1 of `db0` has a
dependent employee, so deletion fails with `HasDependents` and leaves the
state unchanged. -/
theorem delete_department_spec_witness :
    delete_department db0 1 = (.error .hasDependents, db0) :=
  (delete_department_spec db0 1).1 ⟨⟨1, "Ada", "ada@x.com", some 1, 9500000⟩, by decide, rfl⟩

/-- C5: `addDepartment` fails with `DuplicateName` exactly when the name is
already taken (leaving the table unchanged), inserts the row otherwise, and
`DuplicateName` is distinct from every unexpected store error. -/
theorem add_department_spec (db : DB) (nm : String) :
    ((add_department db nm).1 = .error .duplicateName ↔
      ∃ d ∈ db.departments, d.name = nm) ∧
    ((∃ d ∈ db.departments, d.name = nm) → (add_department db nm).2 = db) ∧
    ((∀ d ∈ db.departments, d.name ≠ nm) →
      (add_department db nm).2.departments = db.departments ++ [⟨db.nextDeptId, nm⟩]) ∧
    (∀ e : PgError, DomainError.duplicateName ≠ DomainError.unexpected e) := by
  refine ⟨?_, ?_, ?_, fun e h => by cases h⟩
  · unfold add_department pgInsertDepartment
    by_cases hdup : db.departments.any (fun d => d.name == nm) = true
    · simp only [if_pos hdup]
      simpa using List.any_eq_true.mp hdup
    · simp only [if_neg hdup]
      simp only [List.any_eq_true, beq_iff_eq] at hdup
      simpa using hdup
  · rintro ⟨d, hd, hnm⟩
    unfold add_department pgInsertDepartment
    rw [if_pos (List.any_eq_true.mpr ⟨d, hd, by simp [hnm]⟩)]
  · intro h
    unfold add_department pgInsertDepartment
    rw [if_neg]
    intro hany
    obtain ⟨d, hd, hbe⟩ := List.any_eq_true.mp hany
    exact h d hd (by simpa using hbe)

/-- Witness for C5 at a concrete state: adding the already-existing name
"Engineering" to `db0` fails with `DuplicateName` and leaves the state
unchanged. -/
theorem add_department_spec_witness :
    (add_department db0 "Engineering").2 = db0 :=
  (add_department_spec db0 "Engineering").2.1 ⟨⟨1, "Engineering"⟩, by decide, rfl⟩

/-- C7: `getEmployeeById` returns the not-found signal `none` exactly when
no employee has the id, and any returned record is an employee row (raw
`department_id`, no join) with the requested id. -/
theorem get_employee_by_id_spec (db : DB) (emp_id : Nat) :
    (get_employee_by_id db emp_id = none ↔ ∀ e ∈ db.employees, e.id ≠ emp_id) ∧
    (∀ e : Employee, get_employee_by_id db emp_id = some e →
      e ∈ db.employees ∧ e.id = emp_id) := by
  constructor
  · unfold get_employee_by_id
    rw [List.head?_eq_none_iff, List.filter_eq_nil_iff]
    simp
  · intro e h
    unfold get_employee_by_id at h
    have hmem : e ∈ db.employees.filter (fun e => e.id == emp_id) :=
      List.mem_of_mem_head? (Option.mem_def.mpr h)
    have := List.mem_filter.mp hmem
    exact ⟨this.1, by simpa using this.2⟩

/-- Witness for C7 at a concrete state: the record returned for id 1 in
`db0` is an employee row with id 1. -/
theorem get_employee_by_id_spec_witness :
    (⟨1, "Ada", "ada@x.com", some 1, 9500000⟩ : Employee) ∈ db0.employees ∧
      (⟨1, "Ada", "ada@x.com", some 1, 9500000⟩ : Employee).id = 1 :=
  (get_employee_by_id_spec db0 1).2 ⟨1, "Ada", "ada@x.com", some 1, 9500000⟩ (by decide)

/-- C2: `updateEmployee` with no supplied fields is a no-op reporting
success; whenever an attempted update succeeds, its boolean is true exactly
when a row with the id existed, the departments table is untouched, and
exactly the rows with the id are rewritten by the SET clause; and the SET
clause changes exactly the supplied fields. -/
theorem update_employee_spec (db : DB) (emp_id : Nat) (n em : Option String)
    (d : Option Nat) (s : Option Int) :
    (n = none ∧ em = none ∧ d = none ∧ s = none →
      update_employee db emp_id n em d s = (.ok true, db)) ∧
    (∀ (b : Bool) (db' : DB),
      update_employee db emp_id n em d s = (.ok b, db') →
      ¬(n = none ∧ em = none ∧ d = none ∧ s = none) →
      ((b = true ↔ ∃ e ∈ db.employees, e.id = emp_id) ∧
       db'.departments = db.departments ∧
       db'.employees = db.employees.map (fun e =>
         if e.id = emp_id then applyUpdate e n em d s else e))) ∧
    (∀ e : Employee,
      (applyUpdate e n em d s).name = n.getD e.name ∧
      (applyUpdate e n em d s).email = em.getD e.email ∧
      (applyUpdate e n em d s).department_id =
        (if d.isSome then d else e.department_id) ∧
      (applyUpdate e n em d s).salary = s.getD e.salary) := by
  refine ⟨?_, ?_, fun e => ⟨rfl, rfl, rfl, rfl⟩⟩
  · rintro ⟨rfl, rfl, rfl, rfl⟩
    rfl
  · intro b db' h hne
    have hne' : ¬((n.isNone && em.isNone && d.isNone && s.isNone) = true) := by
      simp only [Bool.and_eq_true, Option.isNone_iff_eq_none]
      rintro ⟨⟨⟨h1, h2⟩, h3⟩, h4⟩
      exact hne ⟨h1, h2, h3, h4⟩
    unfold update_employee at h
    rw [if_neg hne'] at h
    unfold pgUpdateEmployee at h
    by_cases hc1 : (db.employees.any (fun e => e.id == emp_id) && em.any (fun x =>
        db.employees.any (fun e => !(e.id == emp_id) && e.email == x))) = true
    · rw [if_pos hc1] at h
      exact absurd h (by simp)
    · rw [if_neg hc1] at h
      by_cases hc2 : (db.employees.any (fun e => e.id == emp_id) && d.any (fun x =>
          !(db.departments.any (fun dep => dep.id == x)))) = true
      · rw [if_pos hc2] at h
        exact absurd h (by simp)
      · rw [if_neg hc2] at h
        simp only [Prod.mk.injEq, Except.ok.injEq] at h
        obtain ⟨hb, hdb⟩ := h
        subst hb
        subst hdb
        refine ⟨?_, rfl, rfl⟩
        simp [List.any_eq_true]

/-- Witness for C2 at a concrete input: updating only the name of employee
1 in `db0` succeeds, reports an existing row, keeps the departments table,
and rewrites exactly row 1. -/
theorem update_employee_spec_witness :
    ((true = true) ↔ ∃ e ∈ db0.employees, e.id = 1) ∧
    (update_employee db0 1 (some "Grace") none none none).2.departments = db0.departments ∧
    (update_employee db0 1 (some "Grace") none none none).2.employees =
      db0.employees.map (fun e =>
        if e.id = 1 then applyUpdate e (some "Grace") none none none else e) :=
  (update_employee_spec db0 1 (some "Grace") none none none).2.1 true
    (update_employee db0 1 (some "Grace") none none none).2 (by decide) (by simp)

/-- C6: updating only the salary of an existing employee succeeds and
rewrites exactly that employee's salary, leaving its other fields, all
other employees and all departments unchanged. -/
theorem update_salary_only_spec (db : DB) (emp_id : Nat) (v : Int)
    (h : ∃ e ∈ db.employees, e.id = emp_id) :
    update_employee db emp_id none none none (some v) =
      (.ok true,
       { db with employees := db.employees.map (fun e =>
           if e.id = emp_id then { e with salary := v } else e) }) := by
  have hhit : (db.employees.any (fun e => e.id == emp_id)) = true := by
    obtain ⟨e, he, hid⟩ := h
    exact List.any_eq_true.mpr ⟨e, he, by simp [hid]⟩
  unfold update_employee
  rw [if_neg (by simp)]
  unfold pgUpdateEmployee
  rw [if_neg (by simp), if_neg (by simp)]
  rw [hhit]
  rfl

/-- Witness for C6 at a concrete input: setting employee 1's salary to
10000000 cents in `db0`. -/
theorem update_salary_only_spec_witness :
    update_employee db0 1 none none none (some 10000000) =
      (.ok true,
       { db0 with employees := db0.employees.map (fun e =>
           if e.id = 1 then { e with salary := 10000000 } else e) }) :=
  update_salary_only_spec db0 1 10000000
    ⟨⟨1, "Ada", "ada@x.com", some 1, 9500000⟩, by decide, rfl⟩

/-- C9: no call to `updateEmployee` can move an employee's `department_id`
to anything but its previous value or a supplied (non-null) department id;
in particular an assigned department is never cleared to null. -/
theorem update_employee_dept_frame (db : DB) (emp_id : Nat)
    (n em : Option String) (d : Option Nat) (s : Option Int) :
    List.Forall₂ (fun (e e' : Employee) =>
        e'.department_id = e.department_id ∨
          ∃ x, d = some x ∧ e'.department_id = some x)
      db.employees (update_employee db emp_id n em d s).2.employees := by
  have hrefl : List.Forall₂ (fun (e e' : Employee) =>
      e'.department_id = e.department_id ∨
        ∃ x, d = some x ∧ e'.department_id = some x)
      db.employees db.employees :=
    List.forall₂_same.mpr (fun e _ => Or.inl rfl)
  unfold update_employee
  by_cases hno : (n.isNone && em.isNone && d.isNone && s.isNone) = true
  · rw [if_pos hno]
    exact hrefl
  · rw [if_neg hno]
    unfold pgUpdateEmployee
    by_cases hc1 : (db.employees.any (fun e => e.id == emp_id) && em.any (fun x =>
        db.employees.any (fun e => !(e.id == emp_id) && e.email == x))) = true
    · rw [if_pos hc1]
      exact hrefl
    · rw [if_neg hc1]
      by_cases hc2 : (db.employees.any (fun e => e.id == emp_id) && d.any (fun x =>
          !(db.departments.any (fun dep => dep.id == x)))) = true
      · rw [if_pos hc2]
        exact hrefl
      · rw [if_neg hc2]
        show List.Forall₂ _ db.employees (db.employees.map _)
        rw [List.forall₂_map_right_iff]
        refine List.forall₂_same.mpr (fun e _ => ?_)
        by_cases hid : e.id = emp_id
        · rw [if_pos hid]
          cases d with
          | none => exact Or.inl rfl
          | some x => exact Or.inr ⟨x, rfl, rfl⟩
        · rw [if_neg hid]
          exact Or.inl rfl

/-- The unique-violation message classifies as `DuplicateEmail`. -/
lemma classify_uniqueEmailErr : classify_integrity_error uniqueEmailErr = .duplicateEmail := by
  decide

/-- The foreign-key-violation message classifies as `InvalidDepartment`. -/
lemma classify_fkDeptErr : classify_integrity_error fkDeptErr = .invalidDepartment := by
  decide

/-- C4: `addEmployee` fails with `DuplicateEmail` exactly when the email is
already in use (whatever the name or department); absent a duplicate email
it fails with `InvalidDepartment` exactly when a department id is supplied
that no department row carries; and an integrity error whose message
matches none of the recognised patterns is re-raised untranslated
(`UnexpectedStoreError`) rather than mapped to a domain error. -/
theorem add_employee_error_spec (db : DB) (nm email : String)
    (did : Option Nat) (sal : Int) :
    ((add_employee db nm email did sal).1 = .error .duplicateEmail ↔
      ∃ e ∈ db.employees, e.email = email) ∧
    ((∀ e ∈ db.employees, e.email ≠ email) →
      ((add_employee db nm email did sal).1 = .error .invalidDepartment ↔
        ∃ x, did = some x ∧ ∀ dep ∈ db.departments, dep.id ≠ x)) ∧
    (∀ pe : PgError,
      hasPat (lowerStr pe.message) "unique constraint" = false →
      hasPat (lowerStr pe.message) "duplicate key" = false →
      hasPat (lowerStr pe.message) "foreign key" = false →
      classify_integrity_error pe = .unexpected pe) := by
  refine ⟨?_, ?_, ?_⟩
  · unfold add_employee pgInsertEmployee
    by_cases hdup : (db.employees.any (fun e => e.email == email)) = true
    · rw [if_pos hdup]
      refine iff_of_true ?_ ?_
      · show Except.error (classify_integrity_error uniqueEmailErr) = _
        rw [classify_uniqueEmailErr]
      · simpa using List.any_eq_true.mp hdup
    · rw [if_neg hdup]
      have hnot : ¬ ∃ e ∈ db.employees, e.email = email := by simpa using hdup
      refine iff_of_false ?_ hnot
      by_cases hfk : (did.any (fun x =>
          !(db.departments.any (fun dep => dep.id == x)))) = true
      · rw [if_pos hfk]
        show Except.error (classify_integrity_error fkDeptErr) ≠ _
        rw [classify_fkDeptErr]
        simp
      · rw [if_neg hfk]
        show Except.ok () ≠ _
        simp
  · intro hnodup
    have hdup : ¬((db.employees.any (fun e => e.email == email)) = true) := by
      simp only [List.any_eq_true, beq_iff_eq, not_exists]
      intro e
      rintro ⟨he, hem⟩
      exact hnodup e he hem
    unfold add_employee pgInsertEmployee
    rw [if_neg hdup]
    by_cases hfk : (did.any (fun x =>
        !(db.departments.any (fun dep => dep.id == x)))) = true
    · rw [if_pos hfk]
      refine iff_of_true ?_ ?_
      · show Except.error (classify_integrity_error fkDeptErr) = _
        rw [classify_fkDeptErr]
      · cases did with
        | none => simp at hfk
        | some x =>
          refine ⟨x, rfl, fun dep hdep => ?_⟩
          simp only [Option.any_some, Bool.not_eq_true', List.any_eq_false,
            beq_iff_eq] at hfk
          exact hfk dep hdep
    · rw [if_neg hfk]
      refine iff_of_false ?_ ?_
      · show Except.ok () ≠ _
        simp
      · rintro ⟨x, rfl, hnone⟩
        refine hfk ?_
        simp only [Option.any_some, Bool.not_eq_true', List.any_eq_false, beq_iff_eq]
        exact hnone
  · intro pe h1 h2 h3
    unfold classify_integrity_error
    simp [h1, h2, h3]

/-- Witness for C4 at a concrete input: with no employee of `db0` holding
the email, adding an employee with nonexistent department 99 fails with
`InvalidDepartment`. -/
theorem add_employee_error_spec_witness :
    (add_employee db0 "Bob" "bob@x.com" (some 99) 0).1 = .error .invalidDepartment ↔
      ∃ x, (some 99 : Option Nat) = some x ∧ ∀ dep ∈ db0.departments, dep.id ≠ x :=
  (add_employee_error_spec db0 "Bob" "bob@x.com" (some 99) 0).2.1 (by decide)

/-- C8, counterexample: the code classifies integrity errors by message
text alone, so two store errors carrying identical constraint metadata but
different message texts are classified differently — refuting the claim
that errors with the same constraint metadata are classified identically. -/
theorem classify_metadata_counterexample :
    (PgError.mk (some "employees_email_key")
        "duplicate key value violates unique constraint \"employees_email_key\"").constraintName =
      (PgError.mk (some "employees_email_key") "ERROR: 23505").constraintName ∧
    kindOf (classify_integrity_error (PgError.mk (some "employees_email_key")
        "duplicate key value violates unique constraint \"employees_email_key\"")) ≠
      kindOf (classify_integrity_error
        (PgError.mk (some "employees_email_key") "ERROR: 23505")) := by
  decide

/-- C8, amended: the classification of a store failure into domain error
kinds versus unexpected is a function of the error's message text alone —
two store errors with the same message are classified identically whatever
their structured constraint metadata says. -/
theorem classify_ignores_metadata (m : String) (c₁ c₂ : Option String) :
    kindOf (classify_integrity_error ⟨c₁, m⟩) =
      kindOf (classify_integrity_error ⟨c₂, m⟩) := by
  unfold classify_integrity_error
  by_cases h1 : (hasPat (lowerStr m) "unique constraint" ||
      hasPat (lowerStr m) "duplicate key") = true
  · simp only [h1, if_true]
  · simp only [h1, if_false]
    by_cases h2 : hasPat (lowerStr m) "foreign key" = true
    · simp only [h2, if_true]
    · simp only [h2, if_false]
      rfl

/-- An `anyStr` token matches a string exactly when the rest of the pattern
matches some suffix of it. -/
lemma likeToks_anyStr_iff (ps : List LikeTok) (s : List Char) :
    likeToks (.anyStr :: ps) s = true ↔ ∃ t, t <:+ s ∧ likeToks ps t = true := by
  show s.tails.any (fun s' => likeToks ps s') = true ↔ _
  rw [List.any_eq_true]
  constructor
  · rintro ⟨t, ht, h⟩
    exact ⟨t, (List.mem_tails t s).mp ht, h⟩
  · rintro ⟨t, ht, h⟩
    exact ⟨t, (List.mem_tails t s).mpr ht, h⟩

/-- A sequence of literal tokens followed by `%` matches exactly the
strings it is a prefix of. -/
lemma likeToks_lits_front (fs : List Char) (s : List Char) :
    likeToks (fs.map .lit ++ [.anyStr]) s = true ↔ fs <+: s := by
  induction fs generalizing s with
  | nil =>
    simp only [List.map_nil, List.nil_append]
    refine iff_of_true ?_ (List.nil_prefix)
    rw [likeToks_anyStr_iff]
    exact ⟨[], List.nil_suffix, rfl⟩
  | cons c fs ih =>
    simp only [List.map_cons, List.cons_append]
    cases s with
    | nil =>
      show false = true ↔ c :: fs <+: []
      simp
    | cons x s' =>
      show (c == x && likeToks (fs.map .lit ++ [.anyStr]) s') = true ↔
        c :: fs <+: x :: s'
      rw [Bool.and_eq_true, beq_iff_eq, ih s']
      exact (List.cons_prefix_cons).symm

/-- A literal fragment wrapped in `%...%` tokens matches exactly the
strings containing it. -/
lemma likeToks_contains_iff (fs : List Char) (s : List Char) :
    likeToks (.anyStr :: (fs.map .lit ++ [.anyStr])) s = true ↔ fs <:+: s := by
  rw [likeToks_anyStr_iff]
  constructor
  · rintro ⟨t, hts, ht⟩
    exact List.infix_iff_prefix_suffix.mpr
      ⟨t, (likeToks_lits_front fs t).mp ht, hts⟩
  · intro h
    obtain ⟨t, htp, hts⟩ := List.infix_iff_prefix_suffix.mp h
    exact ⟨t, hts, (likeToks_lits_front fs t).mpr htp⟩

/-- A leading `%` lexes to an `anyStr` token. -/
lemma lexPattern_percent (ps : List Char) :
    lexPattern false ('%' :: ps) = .anyStr :: lexPattern false ps := by
  show (if '%' = '\\' then _ else if '%' = '%' then _ else _) = _
  rw [if_neg (by decide), if_pos rfl]

/-- A wildcard-free prefix of a pattern lexes to its literal tokens. -/
lemma lexPattern_wildfree (fs rest : List Char)
    (hfs : ∀ c ∈ fs, c ≠ '%' ∧ c ≠ '_' ∧ c ≠ '\\') :
    lexPattern false (fs ++ rest) = fs.map .lit ++ lexPattern false rest := by
  induction fs with
  | nil => simp
  | cons c fs ih =>
    have hc := hfs c (List.mem_cons_self c fs)
    have hfs' : ∀ x ∈ fs, x ≠ '%' ∧ x ≠ '_' ∧ x ≠ '\\' :=
      fun x hx => hfs x (List.mem_cons_of_mem c hx)
    simp only [List.cons_append, List.map_cons]
    show (if c = '\\' then _ else if c = '%' then _ else if c = '_' then _
      else LikeTok.lit c :: lexPattern false (fs ++ rest)) = _
    rw [if_neg hc.2.2, if_neg hc.1, if_neg hc.2.1, ih hfs']

/-- The lexed form of the pattern `f"%{frag}%"` for a wildcard-free
fragment. -/
lemma lexPattern_wrapped (fs : List Char)
    (hfs : ∀ c ∈ fs, c ≠ '%' ∧ c ≠ '_' ∧ c ≠ '\\') :
    lexPattern false ('%' :: (fs ++ ['%'])) =
      .anyStr :: (fs.map .lit ++ [.anyStr]) := by
  rw [lexPattern_percent, lexPattern_wildfree fs ['%'] hfs, lexPattern_percent]
  rfl

/-- A wildcard-free fragment wrapped in `%...%` matches exactly the strings
containing it. -/
lemma likeMatch_contains_iff (fs : List Char)
    (hfs : ∀ c ∈ fs, c ≠ '%' ∧ c ≠ '_' ∧ c ≠ '\\') (s : List Char) :
    likeMatch ('%' :: (fs ++ ['%'])) s = true ↔ fs <:+: s := by
  unfold likeMatch
  rw [lexPattern_wrapped fs hfs]
  exact likeToks_contains_iff fs s

/-- ASCII case folding never produces a LIKE metacharacter from a
non-metacharacter. -/
lemma toLower_ne_wild {c : Char} (h1 : c ≠ '%') (h2 : c ≠ '_') (h3 : c ≠ '\\') :
    c.toLower ≠ '%' ∧ c.toLower ≠ '_' ∧ c.toLower ≠ '\\' := by
  simp only [Char.toLower]
  split
  · next h =>
    obtain ⟨h65, h90⟩ := h
    generalize c.toNat = n at h65 h90 ⊢
    interval_cases n <;> exact ⟨by decide, by decide, by decide⟩
  · exact ⟨h1, h2, h3⟩

/-- Case folding a wildcard-free fragment keeps it wildcard-free. -/
lemma lowerStr_wild {frag : String}
    (h : ∀ c ∈ frag.data, c ≠ '%' ∧ c ≠ '_' ∧ c ≠ '\\') :
    ∀ c ∈ lowerStr frag, c ≠ '%' ∧ c ≠ '_' ∧ c ≠ '\\' := by
  intro c hc
  unfold lowerStr at hc
  obtain ⟨x, hx, rfl⟩ := List.mem_map.mp hc
  exact toLower_ne_wild (h x hx).1 (h x hx).2.1 (h x hx).2.2

/-- The case-folded character sequence of the pattern `f"%{frag}%"`. -/
lemma lowerStr_pattern (frag : String) :
    lowerStr ("%" ++ frag ++ "%") = '%' :: (lowerStr frag ++ ['%']) := by
  unfold lowerStr
  rw [String.data_append, String.data_append]
  rw [List.map_append, List.map_append]
  have h1 : "%".data.map Char.toLower = ['%'] := by decide
  rw [h1]
  rfl

/-- C10: searching with the empty fragment returns exactly the
`listEmployees` result — same rows, same order. -/
theorem search_empty_eq_get_all (db : DB) :
    search_employees_by_name db "" = get_all_employees db := by
  unfold search_employees_by_name get_all_employees
  have hf : db.employees.filter (fun e => ilike e.name ("%" ++ "" ++ "%")) =
      db.employees := by
    rw [List.filter_eq_self]
    intro e _
    show likeMatch (lowerStr ("%" ++ "" ++ "%")) (lowerStr e.name) = true
    rw [lowerStr_pattern, likeMatch_contains_iff (lowerStr "") (by decide) (lowerStr e.name)]
    show [] <:+: lowerStr e.name
    exact List.nil_infix
  rw [hf]

/-- C3, counterexample: the fragment is interpolated into the ILIKE pattern
unescaped, so a fragment containing the `_` wildcard returns an employee
whose name does not contain the fragment as a substring (case-insensitively
or otherwise). -/
theorem search_wildcard_counterexample :
    search_employees_by_name db0 "a_a" =
      [⟨1, "Ada", "ada@x.com", some "Engineering", 9500000⟩] ∧
    ¬ (lowerStr "a_a" <:+: lowerStr "Ada") := by
  decide

/-- C3, amended: for every fragment free of the LIKE metacharacters `%`,
`_` and `\`, the search returns exactly the employees whose name contains
the fragment ignoring case, with the same projection and ordering as
`listEmployees` — it equals `listEmployees` run on the store restricted to
the matching employees (so an empty result is an ordinary success). -/
theorem search_no_wildcards_spec (db : DB) (frag : String)
    (hw : ∀ c ∈ frag.data, c ≠ '%' ∧ c ≠ '_' ∧ c ≠ '\\') :
    search_employees_by_name db frag =
      get_all_employees { db with employees := db.employees.filter (fun e =>
        decide (lowerStr frag <:+: lowerStr e.name)) } := by
  unfold search_employees_by_name get_all_employees
  have hfeq : db.employees.filter (fun e => ilike e.name ("%" ++ frag ++ "%")) =
      db.employees.filter (fun e => decide (lowerStr frag <:+: lowerStr e.name)) := by
    apply List.filter_congr
    intro e _
    show likeMatch (lowerStr ("%" ++ frag ++ "%")) (lowerStr e.name) =
      decide (lowerStr frag <:+: lowerStr e.name)
    rw [lowerStr_pattern]
    have hiff := likeMatch_contains_iff (lowerStr frag) (lowerStr_wild hw) (lowerStr e.name)
    cases hd : decide (lowerStr frag <:+: lowerStr e.name) with
    | true => exact hiff.mpr (of_decide_eq_true hd)
    | false =>
      exact Bool.eq_false_iff.mpr (fun hl => (of_decide_eq_false hd) (hiff.mp hl))
  rw [hfeq]
  rfl

/-- Witness for the amended C3 at a concrete input: the wildcard-free
fragment "ada" behaves as a case-insensitive substring search on `db0`. -/
theorem search_no_wildcards_spec_witness :
    search_employees_by_name db0 "ada" =
      get_all_employees { db0 with employees := db0.employees.filter (fun e =>
        decide (lowerStr "ada" <:+: lowerStr e.name)) } :=
  search_no_wildcards_spec db0 "ada" (by decide)

end EmpMgmt
